import Mathlib

/-!
Verification of the Cleanaway-services ETL pipeline.

The definitions below are a shallow embedding of the repository's Python
code: `DataProcessor.data_transformation` and its row-level helpers
(`apply_lat_long_fn`, `apply_postcode_function`) from
src/components/data_processor.py, the coordinate-extraction logic of
`DataScraper.get_service_details` from src/components/data_scraper.py,
the recursive pagination crawl of `LinkExtractor.get_all_service_links`
from src/components/link_extractor.py, and the geocoding helpers
`get_lat_long` / `get_postcode` from src/utils/basic_utils.py.
-/

/-- A row of the raw scraped table, as appended by the detail scraper
(columns of the raw CSV: service_name, address, latitude, longitude,
services_offered, details_url, scrape_ts).  Nullable columns are
`Option`. -/
structure RawRow where
  service_name : String
  address : String
  latitude : Option String
  longitude : Option String
  services_offered : Option String
  details_url : String
  scrape_ts : String
deriving DecidableEq, Repr

/-- All columns of a raw row except `scrape_ts`: the comparison key of
`df.drop(columns="scrape_ts").drop_duplicates()` in
`DataProcessor.data_transformation`. -/
def dedupKey (r : RawRow) :
    String × String × Option String × Option String × Option String × String :=
  (r.service_name, r.address, r.latitude, r.longitude, r.services_offered, r.details_url)

/-- Worker for `drop_duplicates`: keeps a row iff its `dedupKey` has not been
seen before (pandas `drop_duplicates` default policy: keep the first
occurrence, preserve row order). -/
def dropDuplicatesAux
    (seen : List (String × String × Option String × Option String × Option String × String)) :
    List RawRow → List RawRow
  | [] => []
  | r :: rest =>
    if dedupKey r ∈ seen then dropDuplicatesAux seen rest
    else r :: dropDuplicatesAux (dedupKey r :: seen) rest

/-- Model of lines 57-59 of data_processor.py:
`df_unq = df.drop(columns="scrape_ts").drop_duplicates(); df = df.loc[df_unq.index]`. -/
def drop_duplicates (rows : List RawRow) : List RawRow :=
  dropDuplicatesAux [] rows

lemma dropDuplicatesAux_sublist (seen) (rows : List RawRow) :
    (dropDuplicatesAux seen rows).Sublist rows := by
  induction rows generalizing seen with
  | nil => simp [dropDuplicatesAux]
  | cons r rest ih =>
    by_cases h : dedupKey r ∈ seen
    · simpa [dropDuplicatesAux, h] using List.Sublist.cons r (ih seen)
    · simpa [dropDuplicatesAux, h] using List.Sublist.cons₂ r (ih (dedupKey r :: seen))

lemma dropDuplicatesAux_complete (seen) (rows : List RawRow) (r : RawRow) :
    r ∈ rows → dedupKey r ∉ seen →
    ∃ r' ∈ dropDuplicatesAux seen rows, dedupKey r' = dedupKey r := by
  induction rows generalizing seen with
  | nil => intro hr _; cases hr
  | cons x rest ih =>
    intro hr hs
    rw [List.mem_cons] at hr
    by_cases hx : dedupKey x ∈ seen
    · rcases hr with rfl | hr
      · exact absurd hx hs
      · simpa [dropDuplicatesAux, hx] using ih seen hr hs
    · rcases hr with rfl | hr
      · exact ⟨r, by simp [dropDuplicatesAux, hx], rfl⟩
      · by_cases hk : dedupKey r = dedupKey x
        · exact ⟨x, by simp [dropDuplicatesAux, hx], hk.symm⟩
        · obtain ⟨r', hmem, hkey⟩ :=
            ih (dedupKey x :: seen) hr (by simp [hk, hs])
          exact ⟨r', by simp [dropDuplicatesAux, hx, hmem], hkey⟩

lemma dropDuplicatesAux_fresh (seen) (rows : List RawRow) (r : RawRow) :
    r ∈ dropDuplicatesAux seen rows → dedupKey r ∉ seen := by
  induction rows generalizing seen with
  | nil => intro hr; simp [dropDuplicatesAux] at hr
  | cons x rest ih =>
    intro hr
    by_cases hx : dedupKey x ∈ seen
    · rw [dropDuplicatesAux, if_pos hx] at hr
      exact ih seen hr
    · rw [dropDuplicatesAux, if_neg hx] at hr
      rw [List.mem_cons] at hr
      rcases hr with rfl | hr
      · exact hx
      · have := ih (dedupKey x :: seen) hr
        intro hmem
        exact this (by simp [hmem])

lemma dropDuplicatesAux_pairwise (seen) (rows : List RawRow) :
    (dropDuplicatesAux seen rows).Pairwise (fun a b => dedupKey a ≠ dedupKey b) := by
  induction rows generalizing seen with
  | nil => simp [dropDuplicatesAux]
  | cons x rest ih =>
    by_cases hx : dedupKey x ∈ seen
    · simpa [dropDuplicatesAux, hx] using ih seen
    · rw [dropDuplicatesAux, if_neg hx]
      refine List.Pairwise.cons ?_ (ih (dedupKey x :: seen))
      intro b hb
      have := dropDuplicatesAux_fresh _ _ _ hb
      intro hxb
      exact this (by simp [hxb])

lemma dropDuplicatesAux_first (seen) (rows : List RawRow) (r : RawRow) :
    r ∈ dropDuplicatesAux seen rows →
    rows.find? (fun x => dedupKey x == dedupKey r) = some r := by
  induction rows generalizing seen with
  | nil => intro hr; simp [dropDuplicatesAux] at hr
  | cons x rest ih =>
    intro hr
    by_cases hx : dedupKey x ∈ seen
    · rw [dropDuplicatesAux, if_pos hx] at hr
      have hne : dedupKey x ≠ dedupKey r := by
        intro h
        exact (dropDuplicatesAux_fresh seen rest r hr) (h ▸ hx)
      rw [List.find?_cons_of_neg _ (by simpa using hne)]
      exact ih seen hr
    · rw [dropDuplicatesAux, if_neg hx] at hr
      rw [List.mem_cons] at hr
      rcases hr with rfl | hr
      · exact List.find?_cons_of_pos _ (by simp)
      · have hne : dedupKey x ≠ dedupKey r := by
          intro h
          exact (dropDuplicatesAux_fresh _ rest r hr) (by simp [h])
        rw [List.find?_cons_of_neg _ (by simpa using hne)]
        exact ih (dedupKey x :: seen) hr

/-- C1.  Deduplication in the Transformer: the output is a subsequence of the
input (first occurrences, original order); every input row is represented by
exactly one output row with the same all-columns-but-`scrape_ts` key; output
keys are pairwise distinct (rows identical except `scrape_ts` collapse to
one); each kept row is the first input row with its key.  Concretely, two
rows identical except `scrape_ts` collapse to the first of them, while a row
differing in `address` is kept as well. -/
theorem drop_duplicates_spec (rows : List RawRow) :
    (drop_duplicates rows).Sublist rows
    ∧ (∀ r ∈ rows, ∃ r' ∈ drop_duplicates rows, dedupKey r' = dedupKey r)
    ∧ (drop_duplicates rows).Pairwise (fun a b => dedupKey a ≠ dedupKey b)
    ∧ (∀ r ∈ drop_duplicates rows,
        rows.find? (fun x => dedupKey x == dedupKey r) = some r)
    ∧ drop_duplicates
        [⟨"Depot", "1 Main St", none, none, none, "u1", "2023-01-01 10:00:00"⟩,
         ⟨"Depot", "1 Main St", none, none, none, "u1", "2023-01-02 11:30:00"⟩,
         ⟨"Depot", "2 Side Rd", none, none, none, "u1", "2023-01-01 10:00:00"⟩]
      = [⟨"Depot", "1 Main St", none, none, none, "u1", "2023-01-01 10:00:00"⟩,
         ⟨"Depot", "2 Side Rd", none, none, none, "u1", "2023-01-01 10:00:00"⟩] := by
  refine ⟨dropDuplicatesAux_sublist [] rows,
    fun r hr => dropDuplicatesAux_complete [] rows r hr (by simp),
    dropDuplicatesAux_pairwise [] rows,
    fun r hr => dropDuplicatesAux_first [] rows r hr,
    by decide⟩

/-- A row of the cleaned table after the synthetic `id` column has been
attached (lines 80-86 of data_processor.py). -/
structure CleanRow where
  id : String
  service_name : String
  address : String
  latitude : Option String
  longitude : Option String
  services_offered : Option String
  details_url : String
  scrape_ts : String
deriving DecidableEq, Repr

/-- Decimal digit list (most significant first) of `n`, with `n` itself as
structural fuel so that the definition computes in the kernel. -/
def decAux : Nat → Nat → List Char
  | 0, _ => []
  | fuel + 1, n => if n = 0 then [] else decAux fuel (n / 10) ++ [Nat.digitChar (n % 10)]

/-- Decimal rendering of a natural number: the model of
`df.index.astype("string")` applied to the `pd.RangeIndex` in
data_processor.py (pandas renders the integer index in base 10). -/
def natToDecimal (n : Nat) : String :=
  if n = 0 then "0" else String.mk (decAux n n)

/-- The synthetic key of the i-th deduplicated row (0-based):
`"SVC" + str(1000 + i)`, from
`pd.RangeIndex(start=1000, ...)` and `"SVC" + df.index.astype("string")`. -/
def mkId (i : Nat) : String := "SVC" ++ natToDecimal (1000 + i)

/-- Model of lines 80-86 of data_processor.py: attach the `id` column in
current (deduplicated, pre-explosion) row order. -/
def add_index (rows : List RawRow) : List CleanRow :=
  rows.enum.map (fun p =>
    { id := mkId p.1
      service_name := p.2.service_name
      address := p.2.address
      latitude := p.2.latitude
      longitude := p.2.longitude
      services_offered := p.2.services_offered
      details_url := p.2.details_url
      scrape_ts := p.2.scrape_ts })

/-- Python `str.split(",")` on the character list of a string, as applied by
`df["services_offered"].str.split(",")`. -/
def splitOnComma : List Char → List (List Char)
  | [] => [[]]
  | c :: rest =>
    if c = ',' then [] :: splitOnComma rest
    else
      match splitOnComma rest with
      | s :: ss => (c :: s) :: ss
      | [] => [[c]]

/-- Python `str.strip()`: drop whitespace from both ends, as applied by
`.str.strip()` after the explode. -/
def stripChars (cs : List Char) : List Char :=
  ((cs.dropWhile Char.isWhitespace).reverse.dropWhile Char.isWhitespace).reverse

/-- The list of category cells one raw `services_offered` cell explodes to:
a null cell survives as a single null (pandas `explode` keeps NaN rows), a
string cell is split on comma and each piece stripped (lines 88-91 of
data_processor.py). -/
def split_services : Option String → List (Option String)
  | none => [none]
  | some s => (splitOnComma s.data).map (fun e => some (String.mk (stripChars e)))

/-- Model of `df.explode("services_offered")` followed by `.str.strip()` for
one logical record: one physical row per category cell, all other fields
duplicated. -/
def explodeRow (r : CleanRow) : List CleanRow :=
  (split_services r.services_offered).map (fun c => { r with services_offered := c })

lemma decAux_zero (fuel : Nat) : decAux fuel 0 = [] := by
  cases fuel <;> simp [decAux]

lemma decAux_eq (fuel n : Nat) (hn : 0 < n) (hfuel : n ≤ fuel) :
    decAux fuel n = ((Nat.digits 10 n).reverse.map Nat.digitChar) := by
  induction fuel generalizing n with
  | zero => omega
  | succ fuel ih =>
    have hne : n ≠ 0 := Nat.pos_iff_ne_zero.mp hn
    rw [decAux, if_neg hne]
    rw [Nat.digits_def' (by norm_num : (1:Nat) < 10) hn]
    by_cases hdiv : n / 10 = 0
    · simp [hdiv, decAux_zero]
    · have hdivpos : 0 < n / 10 := Nat.pos_iff_ne_zero.mpr hdiv
      have hdivle : n / 10 ≤ fuel := by
        have := Nat.div_lt_self hn (by norm_num : 1 < 10)
        omega
      rw [ih (n / 10) hdivpos hdivle]
      simp

lemma digitChar_inj (a b : Nat) (ha : a < 10) (hb : b < 10) :
    Nat.digitChar a = Nat.digitChar b → a = b := by
  interval_cases a <;> interval_cases b <;> decide

lemma map_digitChar_inj (l1 : List Nat) :
    ∀ l2 : List Nat, (∀ x ∈ l1, x < 10) → (∀ x ∈ l2, x < 10) →
    l1.map Nat.digitChar = l2.map Nat.digitChar → l1 = l2 := by
  induction l1 with
  | nil => intro l2 _ _ h; cases l2 <;> simp_all
  | cons a t ih =>
    intro l2 h1 h2 h
    cases l2 with
    | nil => simp at h
    | cons b t2 =>
      simp only [List.map_cons, List.cons.injEq] at h
      have ha : a = b :=
        digitChar_inj a b (h1 a (by simp)) (h2 b (by simp)) h.1
      have ht : t = t2 :=
        ih t2 (fun x hx => h1 x (by simp [hx])) (fun x hx => h2 x (by simp [hx])) h.2
      rw [ha, ht]

lemma natToDecimal_inj (m n : Nat) (hm : 0 < m) (hn : 0 < n) :
    natToDecimal m = natToDecimal n → m = n := by
  intro h
  rw [natToDecimal, natToDecimal, if_neg (Nat.pos_iff_ne_zero.mp hm),
    if_neg (Nat.pos_iff_ne_zero.mp hn)] at h
  have hdata : decAux m m = decAux n n := by injection h
  rw [decAux_eq m m hm le_rfl, decAux_eq n n hn le_rfl] at hdata
  have hx : (Nat.digits 10 m).reverse = (Nat.digits 10 n).reverse := by
    refine map_digitChar_inj _ _ ?_ ?_ hdata
    · intro x hx
      exact Nat.digits_lt_base (by norm_num) (List.mem_reverse.mp hx)
    · intro x hx
      exact Nat.digits_lt_base (by norm_num) (List.mem_reverse.mp hx)
  have hdig : Nat.digits 10 m = Nat.digits 10 n := List.reverse_inj.mp hx
  have := congrArg (Nat.ofDigits 10) hdig
  simpa [Nat.ofDigits_digits] using this

lemma mkId_inj (i j : Nat) : mkId i = mkId j → i = j := by
  intro h
  have hdata := congrArg String.data h
  simp only [mkId, String.data_append] at hdata
  have htail := List.append_cancel_left hdata
  have hs : natToDecimal (1000 + i) = natToDecimal (1000 + j) := String.ext htail
  have := natToDecimal_inj _ _ (by omega) (by omega) hs
  omega

lemma splitOnComma_ne_nil (cs : List Char) : splitOnComma cs ≠ [] := by
  cases cs with
  | nil => simp [splitOnComma]
  | cons c rest =>
    rw [splitOnComma]
    by_cases hc : c = ','
    · simp [hc]
    · simp only [if_neg hc]
      cases h : splitOnComma rest <;> simp

/-- C2.  Synthetic key invariant: the `id` column of the table produced by
`add_index` is, position by position, `"SVC" + str(1000 + i)` for the i-th
deduplicated (pre-explosion) row; the ids are exactly `mkId` applied to
`0, ..., n-1` in order, are pairwise distinct, and every physical row
produced by exploding one logical record keeps that record's id.
`mkId 0 = "SVC1000"`, `mkId 1 = "SVC1001"`, `mkId 2 = "SVC1002"`. -/
theorem synthetic_id_spec (rows : List RawRow) :
    (add_index rows).map (fun r => r.id) = (List.range rows.length).map mkId
    ∧ (∀ i, ∀ hi : i < (add_index rows).length,
        ((add_index rows).get ⟨i, hi⟩).id = "SVC" ++ natToDecimal (1000 + i))
    ∧ (∀ i j, ∀ hi : i < (add_index rows).length, ∀ hj : j < (add_index rows).length,
        i ≠ j → ((add_index rows).get ⟨i, hi⟩).id ≠ ((add_index rows).get ⟨j, hj⟩).id)
    ∧ (∀ r : CleanRow, ∀ r' ∈ explodeRow r, r'.id = r.id)
    ∧ mkId 0 = "SVC1000" ∧ mkId 1 = "SVC1001" ∧ mkId 2 = "SVC1002" := by
  have hget : ∀ i, ∀ hi : i < (add_index rows).length,
      ((add_index rows).get ⟨i, hi⟩).id = mkId i := by
    intro i hi
    simp [add_index, List.get_eq_getElem, List.getElem_map, List.getElem_enum]
  refine ⟨?_, ?_, ?_, ?_, by decide, by decide, by decide⟩
  · rw [add_index, List.map_map, ← List.enum_map_fst rows, List.map_map]
    rfl
  · intro i hi
    simpa [mkId] using hget i hi
  · intro i j hi hj hne heq
    rw [hget i hi, hget j hj] at heq
    exact hne (mkId_inj i j heq)
  · intro r r' hr'
    simp only [explodeRow, List.mem_map] at hr'
    obtain ⟨c, _, rfl⟩ := hr'
    rfl

/-- C3.  Category explosion: for every logical row, the physical rows are
one per comma-separated element of `services_offered`, each element
whitespace-stripped, with all other fields duplicated; a row with null
`services_offered` survives as exactly one row with null category; no row is
dropped (at least one physical row results); `"A, B,C"` yields exactly the
three category cells `"A"`, `"B"`, `"C"`. -/
theorem explode_services_spec (r : CleanRow) :
    (∀ s, r.services_offered = some s →
        (explodeRow r).map (fun x => x.services_offered)
          = (splitOnComma s.data).map (fun e => some (String.mk (stripChars e)))
        ∧ (explodeRow r).length = (splitOnComma s.data).length)
    ∧ (r.services_offered = none → explodeRow r = [r])
    ∧ 1 ≤ (explodeRow r).length
    ∧ (∀ r' ∈ explodeRow r,
        r'.id = r.id ∧ r'.service_name = r.service_name ∧ r'.address = r.address
        ∧ r'.latitude = r.latitude ∧ r'.longitude = r.longitude
        ∧ r'.details_url = r.details_url ∧ r'.scrape_ts = r.scrape_ts)
    ∧ (r.services_offered = some "A, B,C" →
        (explodeRow r).map (fun x => x.services_offered)
          = [some "A", some "B", some "C"]) := by
  refine ⟨?_, ?_, ?_, ?_, ?_⟩
  · intro s hs
    constructor
    · simp only [explodeRow, hs, split_services, List.map_map]
      rfl
    · simp [explodeRow, split_services, hs]
  · intro h
    have heta : ({ r with services_offered := none } : CleanRow) = r := by
      rw [← h]
    simp [explodeRow, split_services, h, heta]
  · cases hso : r.services_offered with
    | none => simp [explodeRow, split_services, hso]
    | some s =>
      have := splitOnComma_ne_nil s.data
      simp only [explodeRow, split_services, hso, List.length_map]
      exact List.length_pos.mpr this
  · intro r' hr'
    simp only [explodeRow, List.mem_map] at hr'
    obtain ⟨c, _, rfl⟩ := hr'
    exact ⟨rfl, rfl, rfl, rfl, rfl, rfl, rfl⟩
  · intro h
    rw [explodeRow, h, List.map_map]
    show (split_services (some "A, B,C")).map (fun c => c) = [some "A", some "B", some "C"]
    decide

/-- The body of the geocoding HTTP response used by `get_lat_long` in
basic_utils.py: an HTTP status and the JSON candidate list, each candidate
carrying its coordinate pair. -/
structure GeoResponse (A : Type) where
  status : Nat
  results : List (A × A)

/-- The Python value `get_lat_long` returns: the coordinate dict built from
the first candidate on HTTP 200, or the plain sentinel string on any other
status. -/
inductive PyGeoValue (A : Type) where
  | dict (lat lon : A) : PyGeoValue A
  | errMessage : PyGeoValue A

/-- Model of `get_lat_long` in basic_utils.py: on status 200 take
`data[0]["lat"], data[0]["lon"]` (an empty candidate list raises IndexError),
otherwise return the sentinel string. -/
def get_lat_long {A : Type} (resp : GeoResponse A) : Except String (PyGeoValue A) :=
  if resp.status = 200 then
    match resp.results with
    | [] => .error "IndexError: list index out of range"
    | c :: _ => .ok (.dict c.1 c.2)
  else .ok .errMessage

/-- Model of `DataProcessor.apply_lat_long_fn` (lines 36-43 of
data_processor.py).  The returned list is the sequence of addresses sent to
the geocoding lookup (empty means the lookup was never invoked).
Subscripting the non-200 sentinel string with `["lat"]` raises TypeError. -/
def apply_lat_long_fn {A : Type} (lat lon : Option A) (addr : String)
    (geo : String → GeoResponse A) :
    Except String ((Option A × Option A) × List String) :=
  if lat.isNone || lon.isNone then
    match get_lat_long (geo addr) with
    | .error e => .error e
    | .ok (.dict la lo) => .ok ((some la, some lo), [addr])
    | .ok .errMessage => .error "TypeError: string indices must be integers"
  else .ok ((lat, lon), [])

/-- C4.  Coordinate backfill is skip-if-present and atomic: a row that
already carries both latitude and longitude is returned untouched and the
geocoding lookup is never invoked for it; a row missing either coordinate
has both fields filled together from the single geocoding result for its
address. -/
theorem lat_long_backfill_spec (A : Type) (lat lon : Option A) (addr : String)
    (geo : String → GeoResponse A) :
    (∀ la lo, lat = some la → lon = some lo →
        apply_lat_long_fn lat lon addr geo = .ok ((lat, lon), []))
    ∧ (lat.isNone ∨ lon.isNone → ∀ la lo ps, geo addr = ⟨200, (la, lo) :: ps⟩ →
        apply_lat_long_fn lat lon addr geo = .ok ((some la, some lo), [addr])) := by
  constructor
  · intro la lo hla hlo
    simp [apply_lat_long_fn, hla, hlo]
  · intro hmiss la lo ps hresp
    have hcond : (lat.isNone || lon.isNone) = true := by
      rcases hmiss with h | h <;> simp [h]
    rw [apply_lat_long_fn, if_pos hcond, hresp]
    simp [get_lat_long]

/-- Model of the longitude correction (lines 102-105 of data_processor.py):
`lambda x: x + 100 if x < 100 else x` applied to the numeric longitude
column; a null (NaN) entry compares false and is left unchanged. -/
def fix_longitude (x : Option ℚ) : Option ℚ :=
  x.map (fun v => if v < 100 then v + 100 else v)

/-- C5.  Longitude correction: every longitude value below 100 has exactly
100 added; every value of 100 or more is unchanged; null stays null;
45.2 becomes 145.2 while 145.2 stays 145.2. -/
theorem longitude_correction_spec (v : ℚ) :
    (v < 100 → fix_longitude (some v) = some (v + 100))
    ∧ (100 ≤ v → fix_longitude (some v) = some v)
    ∧ fix_longitude none = none
    ∧ fix_longitude (some 45.2) = some 145.2
    ∧ fix_longitude (some 145.2) = some 145.2 := by
  refine ⟨?_, ?_, rfl, ?_, ?_⟩
  · intro h
    simp [fix_longitude, if_pos h]
  · intro h
    simp [fix_longitude, not_lt.mpr h]
  · norm_num [fix_longitude]
  · norm_num [fix_longitude]

/-- Character class `[A-Z]` of the jurisdiction regex. -/
def isAZUpper (c : Char) : Bool := 'A' ≤ c && c ≤ 'Z'

/-- The greedy `[A-Z]{2,3}` alternative of the jurisdiction regex, matched at
the head of `cs`: three uppercase letters if possible, else two. -/
def tokenUpper (cs : List Char) : Option String :=
  match cs with
  | a :: b :: c :: _ =>
    if isAZUpper a && isAZUpper b && isAZUpper c then some (String.mk [a, b, c])
    else if isAZUpper a && isAZUpper b then some (String.mk [a, b])
    else none
  | [a, b] => if isAZUpper a && isAZUpper b then some (String.mk [a, b]) else none
  | _ => none

/-- The literal alternatives `Victoria|Vic|Western Australia` of the
jurisdiction regex, matched at the head of `cs` in alternation order
(`Victoria` before `Vic` because the alternation lists it first). -/
def tokenLit (cs : List Char) : Option String :=
  if List.isPrefixOf "Victoria".data cs then some "Victoria"
  else if List.isPrefixOf "Vic".data cs then some "Vic"
  else if List.isPrefixOf "Western Australia".data cs then some "Western Australia"
  else none

/-- The whole group `(?:[A-Z]{2,3}|Victoria|Vic|Western Australia)` matched
at the head of `cs`: alternatives tried in order. -/
def tokenAt (cs : List Char) : Option String :=
  match tokenUpper cs with
  | some t => some t
  | none => tokenLit cs

/-- Leftmost position at which the jurisdiction group matches: positions are
tried in increasing order, as the backtracking search does. -/
def findTok : List Char → Option String
  | [] => none
  | c :: rest =>
    match tokenAt (c :: rest) with
    | some t => some t
    | none => findTok rest

/-- Model of `df["address"].str.extract(r".+?((?:[A-Z]{2,3}|Victoria|Vic|Western
Australia))", expand=False)` (line 65-67 of data_processor.py): the lazy
`.+?` must consume at least one character, so the group is matched at the
leftmost position that is at least 1.  (`.` is modelled as matching any
character; faithful for addresses without a newline.) -/
def extract_state (s : String) : Option String :=
  match s.data with
  | [] => none
  | _ :: rest => findTok rest

/-- Modelled from the spec: "the state column is the first matched
jurisdiction token" — the leftmost group match with no constraint on its
position, for comparison with `extract_state`. -/
def specFirstToken (s : String) : Option String := findTok s.data

/-- Worker for `replaceVic`, with the input length as structural fuel (the
fuel never runs out on a nonempty list, since every step consumes at least
one character): left-to-right scan, at each position the greedy match takes
`Victoria` if present, else `Vic`, replaced by `VIC`, and the scan resumes
after the matched text. -/
def replaceVicAux : Nat → List Char → List Char
  | 0, cs => cs
  | _ + 1, [] => []
  | fuel + 1, c :: rest =>
    if List.isPrefixOf "Victoria".data (c :: rest) then
      'V' :: 'I' :: 'C' :: replaceVicAux fuel ((c :: rest).drop 8)
    else if List.isPrefixOf "Vic".data (c :: rest) then
      'V' :: 'I' :: 'C' :: replaceVicAux fuel ((c :: rest).drop 3)
    else c :: replaceVicAux fuel rest

/-- Model of `.str.replace(r"Vic(?:toria)?", "VIC", regex=True)` (line 73 of
data_processor.py). -/
def replaceVic (cs : List Char) : List Char := replaceVicAux cs.length cs

/-- Worker for `replaceWestAus`, with the input length as structural fuel:
plain left-to-right non-overlapping replacement of `Western Australia` by
`WA`. -/
def replaceWestAusAux : Nat → List Char → List Char
  | 0, cs => cs
  | _ + 1, [] => []
  | fuel + 1, c :: rest =>
    if List.isPrefixOf "Western Australia".data (c :: rest) then
      'W' :: 'A' :: replaceWestAusAux fuel ((c :: rest).drop 17)
    else c :: replaceWestAusAux fuel rest

/-- Model of `.str.replace("Western Australia", "WA")` (line 74 of
data_processor.py). -/
def replaceWestAus (cs : List Char) : List Char := replaceWestAusAux cs.length cs

/-- The two replace passes of lines 71-75 of data_processor.py applied to one
state cell. -/
def normalize_state (s : String) : String :=
  String.mk (replaceWestAus (replaceVic s.data))

/-- The `state` column produced by lines 65-75 of data_processor.py for one
address cell: extraction then synonym normalization. -/
def state_column (addr : String) : Option String :=
  (extract_state addr).map normalize_state

/-- Modelled from the spec: the state column as the claim describes it — the
first matched jurisdiction token of the address, then normalized. -/
def spec_state_column (addr : String) : Option String :=
  (specFirstToken addr).map normalize_state

lemma isPrefixOf_false_of_short (pat cs : List Char) (h : cs.length < pat.length) :
    List.isPrefixOf pat cs = false := by
  induction pat generalizing cs with
  | nil => simp at h
  | cons p ps ih =>
    cases cs with
    | nil => rfl
    | cons c rest =>
      simp only [List.isPrefixOf, Bool.and_eq_false_iff]
      right
      exact ih rest (by simp at h ⊢; omega)

lemma replaceVicAux_short (fuel : Nat) (cs : List Char) (h : cs.length < 3) :
    replaceVicAux fuel cs = cs := by
  induction fuel generalizing cs with
  | zero => rfl
  | succ fuel ih =>
    cases cs with
    | nil => rfl
    | cons c rest =>
      have h8 : List.isPrefixOf "Victoria".data (c :: rest) = false :=
        isPrefixOf_false_of_short _ _ (by simp at h ⊢; omega)
      have h3 : List.isPrefixOf "Vic".data (c :: rest) = false :=
        isPrefixOf_false_of_short _ _ (by simp at h ⊢; omega)
      rw [replaceVicAux, h8, h3]
      simp only [Bool.false_eq_true, if_false]
      rw [ih rest (by simp at h; omega)]

lemma replaceVicAux_triple (fuel : Nat) (a b c : Char) (hb : b ≠ 'i') :
    replaceVicAux fuel [a, b, c] = [a, b, c] := by
  cases fuel with
  | zero => rfl
  | succ fuel =>
    have h8 : List.isPrefixOf "Victoria".data [a, b, c] = false :=
      isPrefixOf_false_of_short _ _ (by simp)
    have h3 : List.isPrefixOf "Vic".data [a, b, c] = false := by
      cases hx : List.isPrefixOf "Vic".data [a, b, c] with
      | false => rfl
      | true =>
        exfalso
        simp [List.isPrefixOf] at hx
        exact hb hx.2.1.symm
    rw [replaceVicAux, h8, h3]
    simp only [Bool.false_eq_true, if_false]
    rw [replaceVicAux_short fuel [b, c] (by simp)]

lemma replaceWestAusAux_short (fuel : Nat) (cs : List Char) (h : cs.length < 17) :
    replaceWestAusAux fuel cs = cs := by
  induction fuel generalizing cs with
  | zero => rfl
  | succ fuel ih =>
    cases cs with
    | nil => rfl
    | cons c rest =>
      have h17 : List.isPrefixOf "Western Australia".data (c :: rest) = false :=
        isPrefixOf_false_of_short _ _ (by simp at h ⊢; omega)
      rw [replaceWestAusAux, h17]
      simp only [Bool.false_eq_true, if_false]
      rw [ih rest (by simp at h; omega)]

lemma findTok_first (cs : List Char) (t : String) :
    findTok cs = some t →
    ∃ p, tokenAt (cs.drop p) = some t ∧ ∀ q < p, tokenAt (cs.drop q) = none := by
  induction cs with
  | nil => intro h; simp [findTok] at h
  | cons c rest ih =>
    intro h
    rw [findTok] at h
    cases htok : tokenAt (c :: rest) with
    | some t' =>
      rw [htok] at h
      have ht : t' = t := Option.some.inj h
      refine ⟨0, ?_, ?_⟩
      · simpa [ht] using htok
      · intro q hq; omega
    | none =>
      rw [htok] at h
      obtain ⟨p, hp, hmin⟩ := ih h
      refine ⟨p + 1, by simpa using hp, ?_⟩
      intro q hq
      cases q with
      | zero => simpa using htok
      | succ q' => simpa using hmin q' (by omega)

lemma isAZUpper_ne_lower_i (b : Char) (hb : isAZUpper b = true) : b ≠ 'i' := by
  intro h
  rw [h] at hb
  exact absurd hb (by decide)

/-- Counterexample to C6 as stated: for the address "NSW 2000" the first
matched jurisdiction token is "NSW" (at position 0), but the code's state
column is "SW" — the regex `.+?` consumes one character before the group may
match, so a token at the very start of the address is truncated. -/
theorem state_first_token_counterexample :
    spec_state_column "NSW 2000" = some "NSW"
    ∧ state_column "NSW 2000" = some "SW"
    ∧ state_column "NSW 2000" ≠ spec_state_column "NSW 2000" := by
  refine ⟨by decide, by decide, by decide⟩

/-- C6 (amended).  Jurisdiction extraction and normalization: the state
column is the normalization of the jurisdiction token matched at the
leftmost position that is at least 1 in the address (the regex `.+?`
requires one preceding character, so a token at the very start of the
address is not matched whole); "Vic" and "Victoria" normalize to "VIC",
"Western Australia" to "WA", and every 2-3 letter uppercase abbreviation
passes through normalization unchanged.  (Position characterization stated
for addresses without a newline, which `.` cannot cross.) -/
theorem state_extraction_amended (addr : String) :
    state_column addr = (extract_state addr).map normalize_state
    ∧ (∀ t, '\n' ∉ addr.data → extract_state addr = some t →
        ∃ p, 1 ≤ p ∧ tokenAt (addr.data.drop p) = some t
          ∧ ∀ q, 1 ≤ q → q < p → tokenAt (addr.data.drop q) = none)
    ∧ normalize_state "Vic" = "VIC"
    ∧ normalize_state "Victoria" = "VIC"
    ∧ normalize_state "Western Australia" = "WA"
    ∧ (∀ a b, isAZUpper a = true → isAZUpper b = true →
        normalize_state (String.mk [a, b]) = String.mk [a, b])
    ∧ (∀ a b c, isAZUpper a = true → isAZUpper b = true → isAZUpper c = true →
        normalize_state (String.mk [a, b, c]) = String.mk [a, b, c])
    ∧ state_column "Melbourne Victoria 3000" = some "VIC"
    ∧ state_column "Perth Western Australia 6000" = some "WA"
    ∧ state_column "Sydney NSW 2000" = some "NSW" := by
  refine ⟨rfl, ?_, by decide, by decide, by decide, ?_, ?_, by decide, by decide, by decide⟩
  · intro t _ h
    rw [extract_state] at h
    cases hd : addr.data with
    | nil => rw [hd] at h; simp at h
    | cons c rest =>
      rw [hd] at h
      obtain ⟨p, hp, hmin⟩ := findTok_first rest t h
      refine ⟨p + 1, by omega, by simpa using hp, ?_⟩
      intro q h1 hq
      cases q with
      | zero => omega
      | succ q' => simpa using hmin q' (by omega)
  · intro a b _ _
    rw [normalize_state]
    rw [show (String.mk [a, b]).data = [a, b] from rfl]
    rw [replaceVic, replaceVicAux_short _ _ (by simp)]
    rw [replaceWestAus, replaceWestAusAux_short _ _ (by simp)]
  · intro a b c _ hb _
    rw [normalize_state]
    rw [show (String.mk [a, b, c]).data = [a, b, c] from rfl]
    rw [replaceVic, replaceVicAux_triple _ a b c (isAZUpper_ne_lower_i b hb)]
    rw [replaceWestAus, replaceWestAusAux_short _ _ (by simp)]

/-- Splits at the last comma of `cs`: the groups `(.*)\,(.*)` of the
coordinate regex, whose first `(.*)` is greedy.  `none` when `cs` has no
comma. -/
def splitAtLastComma : List Char → Option (List Char × List Char)
  | [] => none
  | c :: rest =>
    match splitAtLastComma rest with
    | some (a, b) => some (c :: a, b)
    | none => if c = ',' then some ([], rest) else none

/-- Backtracking worker for the coordinate regex `.*\?q=(.*)\,(.*)` of
data_scraper.py line 112: the leading greedy `.*` prefers the latest
occurrence of `?q=` that is followed by a comma. -/
def matchQAux : List Char → Option (List Char × List Char)
  | [] => none
  | c :: rest =>
    match matchQAux rest with
    | some r => some r
    | none =>
      if List.isPrefixOf "?q=".data (c :: rest) then splitAtLastComma ((c :: rest).drop 3)
      else none

/-- Model of `re.compile(r".*\?q=(.*)\,(.*)").match(address_url)` (lines
112-113 of data_scraper.py): the two captured groups, or `None` when the
pattern does not match. -/
def matchQ (s : String) : Option (String × String) :=
  (matchQAux s.data).map (fun p => (String.mk p.1, String.mk p.2))

/-- Model of lines 111-116 of data_scraper.py: with no address link the
coordinates are null; with a link, `matches.group(1)` on a failed match is
an attribute access on `None` and raises (the scrape of this record then
aborts through the `except` clause, wrapped as CustomException). -/
def extract_coordinates (addressUrl : Option String) :
    Except String (Option String × Option String) :=
  match addressUrl with
  | none => .ok (none, none)
  | some u =>
    if u.data.isEmpty then .ok (none, none)
    else
      match matchQ u with
      | some (la, lo) => .ok (some la, some lo)
      | none => .error "AttributeError: NoneType object has no attribute group"

/-- Counterexample to C7 as stated: a present link target without `?q=` does
not yield null coordinates — `pattern.match` returns `None` and
`matches.group(1)` raises, aborting the record's extraction. -/
theorem coord_extraction_counterexample :
    extract_coordinates (some "https://www.cleanaway.com.au/contact-us/")
      = Except.error "AttributeError: NoneType object has no attribute group"
    ∧ extract_coordinates (some "https://www.cleanaway.com.au/contact-us/")
      ≠ Except.ok (none, none) := by
  refine ⟨rfl, ?_⟩
  intro h
  have h1 : extract_coordinates (some "https://www.cleanaway.com.au/contact-us/")
      = Except.error "AttributeError: NoneType object has no attribute group" := rfl
  rw [h1] at h
  exact Except.noConfusion h

/-- C7 (amended).  Detail-scraper coordinate extraction: a link target with
`?q=` followed by two comma-separated groups yields the two captured
strings; an absent (or empty, hence falsy) link yields null/null with no
error; but a non-empty link target on which the regex fails raises an
AttributeError instead of yielding nulls.  Concretely
`...?q=-37.81,144.96` yields latitude "-37.81" and longitude "144.96". -/
theorem coord_extraction_amended (u : String) :
    extract_coordinates none = Except.ok (none, none)
    ∧ extract_coordinates (some "") = Except.ok (none, none)
    ∧ (∀ la lo, matchQ u = some (la, lo) →
        extract_coordinates (some u) = Except.ok (some la, some lo))
    ∧ (u.data ≠ [] → matchQ u = none →
        extract_coordinates (some u)
          = Except.error "AttributeError: NoneType object has no attribute group")
    ∧ matchQ "https://maps.google.com/?q=-37.81,144.96" = some ("-37.81", "144.96")
    ∧ extract_coordinates (some "https://maps.google.com/?q=-37.81,144.96")
      = Except.ok (some "-37.81", some "144.96") := by
  refine ⟨rfl, rfl, ?_, ?_, by decide, rfl⟩
  · intro la lo h
    by_cases he : u.data.isEmpty
    · exfalso
      have : u.data = [] := List.isEmpty_iff.mp he
      rw [matchQ, this] at h
      simp [matchQAux] at h
    · simp [extract_coordinates, he, h]
  · intro hne hm
    have he : u.data.isEmpty = false := by
      cases hx : u.data.isEmpty
      · rfl
      · exact absurd (List.isEmpty_iff.mp hx) hne
    simp [extract_coordinates, he, hm]

/-- A Python exception value as it flows through the scraping code: a
transport error raised by `httpx.get`, a parse error raised inside the
`try` block, or a `CustomException` wrapping another exception. -/
inductive PyExc where
  | connectError : PyExc
  | timeoutError : PyExc
  | parseError : PyExc
  | custom (inner : PyExc) : PyExc
deriving DecidableEq, Repr

/-- Outcome of running one fetch-and-parse call: its result and the
exceptions passed to `logger.error` along the way. -/
structure FetchRun (A : Type) where
  result : Except PyExc A
  logged : List PyExc

/-- Model of `LinkExtractor.get_urls` (lines 75-112 of link_extractor.py):
`httpx.get` is executed BEFORE the `try` block, so an exception it raises
propagates unwrapped and unlogged; an exception raised inside the `try`
(parsing, extraction, CSV write) is logged and re-raised as
CustomException. -/
def get_urls_model (A : Type) (fetch : Except PyExc String)
    (parse : String → Except PyExc A) : FetchRun A :=
  match fetch with
  | .error e => { result := .error e, logged := [] }
  | .ok body =>
    match parse body with
    | .ok out => { result := .ok out, logged := [] }
    | .error e => { result := .error (.custom e), logged := [.custom e] }

/-- Model of `DataScraper.get_service_details` (lines 70-144 of
data_scraper.py): identical control flow — `httpx.get` on line 71 sits
before the `try` on line 72, so transport errors bypass the
`except`/CustomException wrapping, while errors inside the `try` are logged
and wrapped. -/
def get_service_details_model (A : Type) (fetch : Except PyExc String)
    (parseWrite : String → Except PyExc A) : FetchRun A :=
  match fetch with
  | .error e => { result := .error e, logged := [] }
  | .ok body =>
    match parseWrite body with
    | .ok out => { result := .ok out, logged := [] }
    | .error e => { result := .error (.custom e), logged := [.custom e] }

/-- C8 evidence.  Transport-error propagation: a connection or timeout error
raised by `httpx.get` in `get_urls` or `get_service_details` propagates raw
— NOT wrapped in CustomException and NOT logged by the function (the call
sits outside the `try` block), contradicting the claim and both functions'
docstrings; by contrast an error raised inside the `try` is logged and
wrapped. -/
theorem transport_error_unwrapped :
    (get_urls_model Unit (.error .connectError) (fun _ => .ok ())).result
      = .error PyExc.connectError
    ∧ (get_urls_model Unit (.error .connectError) (fun _ => .ok ())).logged = []
    ∧ (get_urls_model Unit (.error .timeoutError) (fun _ => .ok ())).result
      = .error PyExc.timeoutError
    ∧ (get_urls_model Unit (.error .timeoutError) (fun _ => .ok ())).logged = []
    ∧ (get_service_details_model Unit (.error .connectError) (fun _ => .ok ())).result
      = .error PyExc.connectError
    ∧ (get_service_details_model Unit (.error .connectError) (fun _ => .ok ())).logged = []
    ∧ (get_service_details_model Unit (.error .timeoutError) (fun _ => .ok ())).result
      = .error PyExc.timeoutError
    ∧ (get_urls_model Unit (.ok "html") (fun _ => .error .parseError)).result
      = .error (PyExc.custom .parseError)
    ∧ (get_urls_model Unit (.ok "html") (fun _ => .error .parseError)).logged
      = [PyExc.custom .parseError] :=
  ⟨rfl, rfl, rfl, rfl, rfl, rfl, rfl, rfl, rfl⟩

/-- Model of the recursion of `LinkExtractor.get_all_service_links` (lines
114-138 of link_extractor.py) over a linear page fixture: each page is
represented by whether its `li.location-pagination__next a` element is
present; the crawl fetches the current page, and recurses onto the next
page with the page number incremented exactly when the next element is
present.  Returns the sequence of fetched page numbers. -/
def crawl (pages : List Bool) (pageNum : Nat) : List Nat :=
  match pages with
  | [] => []
  | hasNext :: rest =>
    pageNum :: (if hasNext then crawl rest (pageNum + 1) else [])

lemma crawl_chain (m : Nat) : ∀ s, crawl (List.replicate m true ++ [false]) s
    = List.range' s (m + 1) := by
  induction m with
  | zero => intro s; simp [crawl, List.range']
  | succ m ih =>
    intro s
    rw [List.replicate_succ, List.cons_append]
    show crawl (true :: (List.replicate m true ++ [false])) s = _
    rw [crawl]
    simp only [if_true]
    rw [ih (s + 1)]
    rfl

/-- C9.  Pagination crawl termination: on a fixture of m+1 pages where every
page but the last has a next link and the last has none, the crawl starting
at page number 1 fetches pages 1, 2, ..., m+1 — each exactly once, numbers
incremented by 1 — and a page without a next link ends the crawl with no
further recursion regardless of what would follow; the 3-page fixture gives
exactly the fetches [1, 2, 3]. -/
theorem pagination_crawl_spec (m : Nat) :
    crawl (List.replicate m true ++ [false]) 1 = List.range' 1 (m + 1)
    ∧ (∀ rest : List Bool, ∀ k, crawl (false :: rest) k = [k])
    ∧ crawl [true, true, false] 1 = [1, 2, 3] := by
  refine ⟨crawl_chain m 1, ?_, by decide⟩
  intro rest k
  simp [crawl]

/-- Whether `cs` starts with four decimal digits: the `(\d{4})` group of the
postcode pattern. -/
def digit4At : List Char → Bool
  | a :: b :: c :: d :: _ => a.isDigit && b.isDigit && c.isDigit && d.isDigit
  | _ => false

/-- Position of the last space that is followed by four digits — the spot
the greedy `.*` of `re.findall(r".* (\d{4})", ...)` backtracks to. -/
def lastSpaceDigit4 : List Char → Option Nat
  | [] => none
  | c :: rest =>
    match lastSpaceDigit4 rest with
    | some k => some (k + 1)
    | none => if c = ' ' && digit4At rest then some 0 else none

lemma lastSpaceDigit4_pos (cs : List Char) (k : Nat)
    (h : lastSpaceDigit4 cs = some k) : 0 < cs.length := by
  cases cs with
  | nil => simp [lastSpaceDigit4] at h
  | cons c rest => simp

/-- Model of `re.findall(r".* (\d{4})", loc_name)` in `get_postcode`
(basic_utils.py lines 162-171): each match captures the four digits after
the last space-digit4 occurrence reachable from the current scan position,
and scanning resumes after the captured digits. -/
def findallPostcode (cs : List Char) : List String :=
  match h : lastSpaceDigit4 cs with
  | none => []
  | some k =>
    String.mk ((cs.drop (k + 1)).take 4) :: findallPostcode (cs.drop (k + 5))
termination_by cs.length
decreasing_by
  have hpos := lastSpaceDigit4_pos cs k h
  simp only [List.length_drop]
  omega

/-- The geocoding HTTP response consumed by `get_postcode`: status and the
`display_name` of each returned candidate. -/
structure NominatimResponse where
  status : Nat
  displayNames : List String

/-- A Python value returned by `get_postcode`: a list of strings (the
regex matches), a plain string (the non-200 sentinel), or the implicit
`None` when the loop finds no match. -/
inductive PyStrRet where
  | listVal (l : List String) : PyStrRet
  | strVal (s : String) : PyStrRet
  | noneVal : PyStrRet
deriving DecidableEq, Repr

/-- Model of `get_postcode` (basic_utils.py lines 162-173): on HTTP 200,
return the findall list of the first candidate whose display name has a
match, or fall off the loop returning `None`; on any other status return
the sentinel string. -/
def get_postcode (resp : NominatimResponse) : PyStrRet :=
  if resp.status = 200 then
    match resp.displayNames.find? (fun nm => !(findallPostcode nm.data).isEmpty) with
    | some nm => .listVal (findallPostcode nm.data)
    | none => .noneVal
  else .strVal "Error: Unable to retrieve location information"

/-- Python subscripting `value[0]`: first element of a list, first character
of a string (as a 1-character string), TypeError on `None`. -/
def pyIndexZero : PyStrRet → Except String String
  | .listVal [] => .error "IndexError: list index out of range"
  | .listVal (x :: _) => .ok x
  | .strVal s =>
    match s.data with
    | [] => .error "IndexError: string index out of range"
    | c :: _ => .ok (String.mk [c])
  | .noneVal => .error "TypeError: NoneType object is not subscriptable"

/-- Model of `DataProcessor.apply_postcode_function` (lines 45-51 of
data_processor.py): a row with a postcode keeps it; otherwise the row gets
`get_postcode(row["address"])[0]`. -/
def apply_postcode_function (postcode : Option String) (resp : NominatimResponse) :
    Except String String :=
  match postcode with
  | some p => .ok p
  | none => pyIndexZero (get_postcode resp)

/-- C10.  Postcode backfill under geocoding failure: for a row whose
postcode extraction failed, a non-200 geocoding response makes
`get_postcode` return the sentinel string and `apply_postcode_function`
store its first character "E" as the postcode (neither null nor an error);
a 200 response none of whose display names contains a space-preceded
4-digit sequence makes `get_postcode` return None, and subscripting `[0]`
raises a TypeError that aborts the transform.  A row that already has a
postcode keeps it. -/
theorem postcode_failure_spec (resp : NominatimResponse) :
    (resp.status ≠ 200 → apply_postcode_function none resp = .ok "E")
    ∧ (resp.status = 200 → (∀ nm ∈ resp.displayNames, findallPostcode nm.data = []) →
        apply_postcode_function none resp
          = .error "TypeError: NoneType object is not subscriptable")
    ∧ (∀ p, apply_postcode_function (some p) resp = .ok p)
    ∧ get_postcode ⟨404, ["Some Suburb"]⟩
        = .strVal "Error: Unable to retrieve location information" := by
  refine ⟨?_, ?_, fun p => rfl, rfl⟩
  · intro h
    simp only [apply_postcode_function, get_postcode, if_neg h]
    rfl
  · intro h200 hall
    have hfind : resp.displayNames.find?
        (fun nm => !(findallPostcode nm.data).isEmpty) = none := by
      rw [List.find?_eq_none]
      intro nm hmem
      simp [hall nm hmem]
    simp only [apply_postcode_function, get_postcode, if_pos h200, hfind]
    rfl
